import Mathlib

/-!
Verification development for the `hashr_lookup` sketch analyzer
(`timesketch/lib/analyzers/hashr_lookup.py`).

The analyzer extracts sha256 hash values from an event stream, deduplicates
them into a dict from hash to the events carrying it, checks the distinct
hashes against the hashR postgres database in fixed-size batches, and tags
(and optionally attributes provenance to) every event whose hash is known.

The embedding below models:
 * the hashR database tables `samples`, `sources`, `samples_sources` and the
   two SELECT statements issued by `check_against_hashr` (the provenance join
   and the membership-only query);
 * `batch_hashes` (list slicing in steps of `batch_size`);
 * `check_against_hashr`'s merge of per-batch rows into `matching_hashes`
   (`matching_hashes.setdefault(sample_hash, set()).add(source)`). The dict of
   per-hash source sets is represented by the list of (hash, source) pairs the
   merge loop consumes, in arrival order: two `matching_hashes` dicts are equal
   exactly when their pair lists carry the same members, a hash is a key of the
   dict exactly when it occurs as a first component (`matchedKeys`), and its
   source set is the set of members of `provSet` (`dedup` recovers the set's
   canonical duplicate-free listing);
 * `annotate_event` over an explicit event annotation state;
 * the scan loop of `run` (field probing, truthiness test, length-64 check,
   `hash_events_dict` construction) and the tagging loops of `run`.

SQL row order and python dict iteration order are unobservable in every output
the claims mention (sets, counters, per-event final states), so queries are
modelled as order-canonical list filters and the tagging loop as a fold over
`hash_events_dict` restricted to matched keys.
-/

/-- The fixed sha256 digest of empty input, special-cased by `annotate_event`
(`hash_value == "e3b0c442..."` in the source). -/
def ZEROBYTE_HASH : String :=
  "e3b0c44298fc1c149afbf4c8996fb92427ae41e4649b934ca495991b7852b855"

/-- `return_fields` in `run`: the recognized hash field names, in the priority
order the extraction loop probes them. -/
def RETURN_FIELDS : List String := ["hash_sha256", "hash", "sha256", "sha256_hash"]

/-- The `sourceid` column of the `sources` table: `check_against_hashr`
distinguishes a list-valued entry (joined with ";") from a plain one. -/
inductive SourceId where
  | str (s : String)
  | many (ids : List String)
deriving DecidableEq

/-- One row of the `sources` table (the columns the analyzer reads). -/
structure SourceRow where
  sha256 : String
  sourceid : SourceId
  reponame : String
deriving DecidableEq

/-- The hashR database: the three tables required by the analyzer.
`samples` holds the `sha256` column, `samples_sources` rows are
`(sample_sha256, source_sha256)` pairs. -/
structure HashrDB where
  samples : List String
  sources : List SourceRow
  samples_sources : List (String × String)
deriving DecidableEq

/-- The provenance descriptor built from one joined row:
`f-string {reponame}:{";".join(sourceid)}` for a list-valued `sourceid`,
`f-string {reponame}:{sourceid}` otherwise. -/
def sourceDescriptor (reponame : String) (sid : SourceId) : String :=
  match sid with
  | SourceId.many ids => reponame ++ ":" ++ String.intercalate ";" ids
  | SourceId.str s => reponame ++ ":" ++ s

/-- Rows of the provenance query (`add_source_attribute` branch), before the
`WHERE sample_sha256 IN batch` restriction: `samples_sources` joined with
`sources` on `source_sha256 = sources.sha256`, each row reduced to the pair
(sample hash, source descriptor) that the merge loop consumes. -/
def provRows (db : HashrDB) : List (String × String) :=
  db.samples_sources.flatMap (fun ss =>
    (db.sources.filter (fun src => src.sha256 == ss.2)).map
      (fun src => (ss.1, sourceDescriptor src.reponame src.sourceid)))

/-- Rows of the membership-only query (`add_source_attribute` false), before
the `WHERE` restriction: one row per `samples.sha256` entry. The result rows
have a single column, so `entry[2]` raises and the merge loop stores the
sentinel `"TagsOnly"` as the source. -/
def memberRows (db : HashrDB) : List (String × String) :=
  db.samples.map (fun h => (h, "TagsOnly"))

/-- The rows produced by whichever SELECT the `if self.add_source_attribute`
branch of `check_against_hashr` issues. -/
def allRows (add_source_attribute : Bool) (db : HashrDB) : List (String × String) :=
  if add_source_attribute then provRows db else memberRows db

/-- One batch's query results: the SELECT restricted by
`WHERE ... in_(batch)`. -/
def queryRows (add_source_attribute : Bool) (db : HashrDB) (batch : List String) :
    List (String × String) :=
  (allRows add_source_attribute db).filter (fun row => decide (row.1 ∈ batch))

/-- The slicing loop of `batch_hashes` with batch size `n + 1`, driven by a
fuel counter bounding the number of remaining elements: each step consumes at
least one element, so `hash_list.length` steps always suffice. This mirrors
the termination of python's `range(0, len(hash_list), batch_size)` while
keeping the recursion structural. -/
def batchHashesAux (n : Nat) : Nat → List String → List (List String)
  | 0, _ => []
  | _, [] => []
  | fuel + 1, l@(_ :: _) => l.take (n + 1) :: batchHashesAux n fuel (l.drop (n + 1))

/-- `batch_hashes`: `for i in range(0, len(hash_list), batch_size):
yield hash_list[i : i + batch_size]`. A batch size of 0 makes python's
`range` raise; the analyzer always passes a positive size. -/
def batch_hashes (hash_list : List String) (batch_size : Nat) : List (List String) :=
  match batch_size with
  | 0 => []
  | n + 1 => batchHashesAux n hash_list.length hash_list

/-- The merge loop of `check_against_hashr`: starting from the empty dict,
every row of every batch is folded in via
`matching_hashes.setdefault(sample_hash, set()).add(source)`; the resulting
dict of per-hash source sets is carried as the accumulated pair list. -/
def mergeRows (add_source_attribute : Bool) (db : HashrDB) (batches : List (List String)) :
    List (String × String) :=
  batches.foldl (fun acc batch => acc ++ queryRows add_source_attribute db batch) []

/-- `check_against_hashr`: slice `sample_hashes` into batches, query each
batch, and merge all returned rows. -/
def check_against_hashr (add_source_attribute : Bool) (query_batch_size : Nat)
    (db : HashrDB) (sample_hashes : List String) : List (String × String) :=
  mergeRows add_source_attribute db (batch_hashes sample_hashes query_batch_size)

/-- The keys of the `matching_hashes` dict (each key once). -/
def matchedKeys (m : List (String × String)) : List String := (m.map Prod.fst).dedup

/-- The listing of the per-hash source set of the `matching_hashes` dict. -/
def provSet (m : List (String × String)) (h : String) : List String :=
  (m.filter (fun p => p.1 == h)).map Prod.snd

theorem batchHashesAux_flatten (n : Nat) : ∀ (fuel : Nat) (l : List String),
    l.length ≤ fuel → (batchHashesAux n fuel l).flatten = l := by
  intro fuel
  induction fuel with
  | zero =>
      intro l h
      have hnil : l = [] := List.length_eq_zero.mp (by omega)
      subst hnil
      rfl
  | succ f ih =>
      intro l h
      cases l with
      | nil => rfl
      | cons x xs =>
          have h' : xs.length + 1 ≤ f + 1 := by simpa using h
          simp only [batchHashesAux, List.flatten_cons]
          rw [ih ((x :: xs).drop (n + 1)) (by simp [List.length_drop]; omega)]
          exact List.take_append_drop _ _

theorem join_batch_hashes (l : List String) (n : Nat) :
    (batch_hashes l (n + 1)).flatten = l :=
  batchHashesAux_flatten n l.length l (Nat.le_refl _)

theorem mem_queryRows {add_source_attribute : Bool} {db : HashrDB} {batch : List String}
    {p : String × String} :
    p ∈ queryRows add_source_attribute db batch ↔
      p ∈ allRows add_source_attribute db ∧ p.1 ∈ batch := by
  simp [queryRows, List.mem_filter]

theorem mem_mergeRows_aux (add_source_attribute : Bool) (db : HashrDB) :
    ∀ (bs : List (List String)) (acc : List (String × String)) (p : String × String),
      (p ∈ bs.foldl (fun acc batch => acc ++ queryRows add_source_attribute db batch) acc ↔
        p ∈ acc ∨ ∃ b ∈ bs, p ∈ queryRows add_source_attribute db b) := by
  intro bs
  induction bs with
  | nil => intro acc p; simp
  | cons b rest ih =>
      intro acc p
      rw [List.foldl_cons, ih]
      simp [List.mem_append, or_assoc]

theorem mem_mergeRows {add_source_attribute : Bool} {db : HashrDB}
    {bs : List (List String)} {p : String × String} :
    p ∈ mergeRows add_source_attribute db bs ↔
      ∃ b ∈ bs, p ∈ queryRows add_source_attribute db b := by
  rw [mergeRows, mem_mergeRows_aux]
  simp

theorem mem_check_against_hashr {add_source_attribute : Bool} {db : HashrDB}
    {query_batch_size : Nat} {l : List String} {p : String × String}
    (hb : 1 ≤ query_batch_size) :
    p ∈ check_against_hashr add_source_attribute query_batch_size db l ↔
      p.1 ∈ l ∧ p ∈ allRows add_source_attribute db := by
  obtain ⟨m, rfl⟩ : ∃ m, query_batch_size = m + 1 := ⟨query_batch_size - 1, by omega⟩
  rw [check_against_hashr, mem_mergeRows]
  constructor
  · rintro ⟨b, hbmem, hrow⟩
    rw [mem_queryRows] at hrow
    refine ⟨?_, hrow.1⟩
    have : p.1 ∈ (batch_hashes l (m + 1)).flatten := List.mem_flatten.mpr ⟨b, hbmem, hrow.2⟩
    rwa [join_batch_hashes] at this
  · rintro ⟨hpl, hrow⟩
    have : p.1 ∈ (batch_hashes l (m + 1)).flatten := by rw [join_batch_hashes]; exact hpl
    obtain ⟨b, hbmem, hpb⟩ := List.mem_flatten.mp this
    exact ⟨b, hbmem, mem_queryRows.mpr ⟨hrow, hpb⟩⟩

theorem mem_matchedKeys {m : List (String × String)} {h : String} :
    h ∈ matchedKeys m ↔ ∃ p ∈ m, p.1 = h := by
  simp [matchedKeys, List.mem_dedup, List.mem_map]

/-- Modelled from the spec: the mutable annotation surface of an
`interface.Event` (the `interface` module is not part of the provided source).
Spec section 3: "tags: a set of short labels; attributes: a mapping of named
values", plus a commit operation; section 8: tag sets are sets, re-adding a
label is a no-op. The tag set is carried as its duplicate-free listing in
insertion order; the attribute value `list(sources)` is a python set rendered
as a list. `commits` counts the `event.commit()` calls made on this event. -/
structure EventState where
  tags : List String
  attrs : List (String × List String)
  commits : Nat
deriving DecidableEq

/-- Set insertion into the tag listing: adding a label already present is a
no-op. -/
def addTag (tags : List String) (t : String) : List String :=
  if t ∈ tags then tags else tags ++ [t]

/-- Modelled from the spec: `event.add_tags(labels)` adds the labels to the
event's tag set (idempotent set insertion, spec sections 6 and 8). -/
def EventState.add_tags (e : EventState) (labels : List String) : EventState :=
  { e with tags := labels.foldl addTag e.tags }

/-- Modelled from the spec: `event.add_attributes({name: value})` records the
named attribute on the event (spec section 6). -/
def EventState.add_attributes (e : EventState) (name : String) (value : List String) :
    EventState :=
  { e with attrs := e.attrs ++ [(name, value)] }

/-- Modelled from the spec: `event.commit()` commits the event's pending
annotations; we count the calls (spec sections 3 and 4.4). -/
def EventState.commit (e : EventState) : EventState :=
  { e with commits := e.commits + 1 }

/-- An event that was never annotated. -/
def initialEventState : EventState := { tags := [], attrs := [], commits := 0 }

/-- The `sources` argument of `annotate_event`: either the python literal
`False` (passed by `run` when `add_source_attribute` is off, and forced inside
`annotate_event` for the zero-byte hash) or a set of source strings (listed
without duplicates). -/
inductive Sources where
  | fls : Sources
  | st (s : List String) : Sources
deriving DecidableEq

/-- `annotate_event` returns nothing; its effects are the updated event and
the updated `self.zerobyte_file_counter`. -/
structure AnnotateOut where
  event : EventState
  zerobyte_file_counter : Nat
deriving DecidableEq

/-- `annotate_event`: start from `tags_container = ["known-hash"]`; if the
hash is the zero-byte sentinel, also add `"zerobyte-file"`, bump the zero-byte
counter and overwrite `sources` with `False`; apply the tags; if `sources` is
truthy (a non-empty set), attach `list(sources)` as the `hashR_sample_sources`
attribute; finally commit the event. -/
def annotate_event (hash_value : String) (sources : Sources) (event : EventState)
    (zerobyte_file_counter : Nat) : AnnotateOut :=
  let isZero := hash_value == ZEROBYTE_HASH
  let tags_container := if isZero then ["known-hash", "zerobyte-file"] else ["known-hash"]
  let zb := if isZero then zerobyte_file_counter + 1 else zerobyte_file_counter
  let sources := if isZero then Sources.fls else sources
  let event := event.add_tags tags_container
  let event :=
    match sources with
    | Sources.st s => if s ≠ [] then event.add_attributes "hashR_sample_sources" s else event
    | Sources.fls => event
  { event := event.commit, zerobyte_file_counter := zb }

theorem annotate_event_commits (hash_value : String) (sources : Sources)
    (event : EventState) (zb : Nat) :
    (annotate_event hash_value sources event zb).event.commits = event.commits + 1 := by
  cases hz : hash_value == ZEROBYTE_HASH with
  | true => simp [annotate_event, hz, EventState.add_tags, EventState.commit]
  | false =>
      cases sources with
      | fls => simp [annotate_event, hz, EventState.add_tags, EventState.commit]
      | st s =>
          by_cases hs : s = [] <;>
            simp [annotate_event, hz, hs, EventState.add_tags, EventState.add_attributes,
              EventState.commit]

theorem mem_addTag {tags : List String} {x t : String} :
    t ∈ addTag tags x ↔ t ∈ tags ∨ t = x := by
  unfold addTag
  split
  · constructor
    · exact Or.inl
    · rintro (h | rfl)
      · exact h
      · assumption
  · simp [List.mem_append]

theorem mem_foldl_addTag : ∀ (labels tags : List String) (t : String),
    t ∈ labels.foldl addTag tags ↔ t ∈ tags ∨ t ∈ labels := by
  intro labels
  induction labels with
  | nil => intro tags t; simp
  | cons x xs ih =>
      intro tags t
      rw [List.foldl_cons, ih, mem_addTag, List.mem_cons]
      constructor
      · rintro ((h | h) | h)
        · exact Or.inl h
        · exact Or.inr (Or.inl h)
        · exact Or.inr (Or.inr h)
      · rintro (h | h | h)
        · exact Or.inl (Or.inl h)
        · exact Or.inl (Or.inr h)
        · exact Or.inr h

/-- `event.source.get(key)` on the event payload (a dict rendered as an
association list with distinct keys). -/
def getField (source : List (String × String)) (key : String) : Option String :=
  (source.find? (fun kv => kv.1 == key)).map Prod.snd

/-- The extraction loop of `run`: probe `return_fields` in order, stop at the
first field present in the payload (`break`). Returns the python `hash_value`
variable: `none` models `None` (no recognized field present). -/
def firstHashValue (source : List (String × String)) : Option String :=
  RETURN_FIELDS.findSome? (fun key => getField source key)

/-- Which warning branch of the scan loop rejected an event:
`noMatchingField` for the `if not hash_value` branch ("No matching field with
a hash found in this event!"), `invalidLength` for the length-64 branch. -/
inductive Rejection where
  | noMatchingField
  | invalidLength
deriving DecidableEq

/-- The scan loop's state: `total_event_counter`, `error_hash_counter`,
`hash_events_dict` (hash to the ids of the events carrying it, insertion
ordered) and, as instrumentation, the rejected event ids with the branch that
rejected them. -/
structure ScanState where
  total_event_counter : Nat
  error_hash_counter : Nat
  hash_events_dict : List (String × List Nat)
  rejections : List (Nat × Rejection)
deriving DecidableEq

/-- `hash_events_dict.setdefault(hash_value, []).append(event)`: append the
event id to the (unique) entry of the key, or add a fresh entry at the end. -/
def dictAppend (d : List (String × List Nat)) (h : String) (i : Nat) :
    List (String × List Nat) :=
  match d with
  | [] => [(h, [i])]
  | p :: rest => if p.1 = h then (p.1, p.2 ++ [i]) :: rest else p :: dictAppend rest h i

/-- `hash_events_dict[h]` (with `[]` for a missing key). -/
def dictGetD (d : List (String × List Nat)) (h : String) : List Nat :=
  match d with
  | [] => []
  | p :: rest => if p.1 = h then p.2 else dictGetD rest h

/-- One iteration of the scan loop of `run` for the event with id `ev.1` and
payload `ev.2`: count the event, probe the fields, and either reject
(`if not hash_value`, which covers both an absent field and a falsy value
such as the empty string, or `len(hash_value) != 64`) or append the event to
`hash_events_dict` under the extracted value, unmodified. -/
def processEvent (st : ScanState) (ev : Nat × List (String × String)) : ScanState :=
  match firstHashValue ev.2 with
  | none =>
      { st with total_event_counter := st.total_event_counter + 1,
                error_hash_counter := st.error_hash_counter + 1,
                rejections := st.rejections ++ [(ev.1, Rejection.noMatchingField)] }
  | some hash_value =>
      if hash_value = "" then
        { st with total_event_counter := st.total_event_counter + 1,
                  error_hash_counter := st.error_hash_counter + 1,
                  rejections := st.rejections ++ [(ev.1, Rejection.noMatchingField)] }
      else if hash_value.length ≠ 64 then
        { st with total_event_counter := st.total_event_counter + 1,
                  error_hash_counter := st.error_hash_counter + 1,
                  rejections := st.rejections ++ [(ev.1, Rejection.invalidLength)] }
      else
        { st with total_event_counter := st.total_event_counter + 1,
                  hash_events_dict := dictAppend st.hash_events_dict hash_value ev.1 }

/-- Number the events of the stream consecutively from `k`; the index is the
event's identity. -/
def enumerate {α : Type} (k : Nat) : List α → List (Nat × α)
  | [] => []
  | x :: xs => (k, x) :: enumerate (k + 1) xs

/-- The state before the scan loop of `run`. -/
def initialScan : ScanState :=
  { total_event_counter := 0, error_hash_counter := 0, hash_events_dict := [],
    rejections := [] }

/-- The whole scan loop of `run` over the event stream. -/
def scanEvents (events : List (List (String × String))) : ScanState :=
  (enumerate 0 events).foldl processEvent initialScan

/-- How many times event id `i` occurs across all lists of the dict. -/
def countInDict (d : List (String × List Nat)) (i : Nat) : Nat :=
  (d.map (fun e => e.2.count i)).sum

theorem countInDict_dictAppend : ∀ (d : List (String × List Nat)) (h : String) (j i : Nat),
    countInDict (dictAppend d h j) i = countInDict d i + if i = j then 1 else 0 := by
  intro d
  induction d with
  | nil =>
      intro h j i
      by_cases hij : i = j <;> simp [dictAppend, countInDict, List.count_cons, hij]
  | cons p rest ih =>
      intro h j i
      by_cases hp : p.1 = h
      · simp only [dictAppend, if_pos hp, countInDict, List.map_cons, List.sum_cons,
          List.count_append]
        by_cases hij : i = j <;> (simp [List.count_cons, hij, countInDict]; try omega)
      · simp only [dictAppend, if_neg hp, countInDict, List.map_cons, List.sum_cons]
        have := ih h j i
        simp only [countInDict] at this
        omega

theorem dictGetD_dictAppend : ∀ (d : List (String × List Nat)) (h : String) (i : Nat),
    dictGetD (dictAppend d h i) h = dictGetD d h ++ [i] := by
  intro d
  induction d with
  | nil => intro h i; simp [dictAppend, dictGetD]
  | cons p rest ih =>
      intro h i
      by_cases hp : p.1 = h
      · simp [dictAppend, hp, dictGetD]
      · simp only [dictAppend, if_neg hp, dictGetD]
        exact ih h i

theorem countInDict_processEvent (st : ScanState) (k : Nat)
    (src : List (String × String)) (i : Nat) :
    countInDict (processEvent st (k, src)).hash_events_dict i ≤
      countInDict st.hash_events_dict i + if i = k then 1 else 0 := by
  cases h : firstHashValue src with
  | none => simp [processEvent, h]
  | some hv =>
      by_cases he : hv = ""
      · simp [processEvent, h, he]
      · by_cases hl : hv.length ≠ 64
        · simp [processEvent, h, he, hl]
        · simp only [processEvent, h, if_neg he, if_neg hl, countInDict_dictAppend]
          omega

theorem countInDict_scanFold :
    ∀ (events : List (List (String × String))) (k : Nat) (st : ScanState) (i : Nat),
      countInDict ((enumerate k events).foldl processEvent st).hash_events_dict i ≤
        countInDict st.hash_events_dict i + if k ≤ i then 1 else 0 := by
  intro events
  induction events with
  | nil => intro k st i; simp [enumerate]
  | cons src rest ih =>
      intro k st i
      simp only [enumerate, List.foldl_cons]
      have h1 := ih (k + 1) (processEvent st (k, src)) i
      have h2 := countInDict_processEvent st k src i
      split_ifs at h1 h2 ⊢ <;> omega

theorem countInDict_scan_le_one (events : List (List (String × String))) (i : Nat) :
    countInDict (scanEvents events).hash_events_dict i ≤ 1 := by
  have := countInDict_scanFold events 0 initialScan i
  simpa [initialScan, countInDict] using this

/-- The configuration the analyzer loads in `connect_hashr`, plus the database
the connection reaches. -/
structure RunConfig where
  add_source_attribute : Bool
  query_batch_size : Nat
  db : HashrDB

/-- The state threaded through the tagging loops of `run`: the per-event-id
annotation states, `known_hash_counter` and `self.zerobyte_file_counter`. -/
structure AnnotState where
  states : Nat → EventState
  known_hash_counter : Nat
  zerobyte_file_counter : Nat

/-- Point update of the per-event states. -/
def updateStates (states : Nat → EventState) (i : Nat) (e : EventState) :
    Nat → EventState :=
  fun j => if j = i then e else states j

/-- The annotation state at the start of the tagging loops: no event has been
tagged or committed, both counters are zero. -/
def initAnnot : AnnotState :=
  { states := fun _ => initialEventState, known_hash_counter := 0,
    zerobyte_file_counter := 0 }

/-- The body of the inner tagging loop of `run`
(`for event in hash_events_dict[sample_hash]`): bump `known_hash_counter` and
call `annotate_event` with `hashr_value` (the hash's source set) when
`add_source_attribute` is on, with `False` otherwise. -/
def annotateOne (cfg : RunConfig) (matching : List (String × String)) (h : String)
    (st : AnnotState) (i : Nat) : AnnotState :=
  let sources :=
    if cfg.add_source_attribute then Sources.st ((provSet matching h).dedup)
    else Sources.fls
  let out := annotate_event h sources (st.states i) st.zerobyte_file_counter
  { states := updateStates st.states i out.event,
    known_hash_counter := st.known_hash_counter + 1,
    zerobyte_file_counter := out.zerobyte_file_counter }

/-- The outer tagging loop of `run`
(`for sample_hash, hashr_value in matching_hashes.items()`): every matched
hash's event list is walked once. The python iteration is over the dict
`matching_hashes`, whose keys all come from `hash_events_dict`; iterating
`hash_events_dict` restricted to matched keys visits the same (hash, events)
pairs, and the per-hash bodies touch disjoint events, so the order is
unobservable. -/
def annotateMatched (cfg : RunConfig) (matching : List (String × String))
    (dict : List (String × List Nat)) (st : AnnotState) : AnnotState :=
  dict.foldl (fun st entry =>
    if entry.1 ∈ matchedKeys matching then
      entry.2.foldl (annotateOne cfg matching entry.1) st
    else st) st

theorem foldl_annotateOne_commits (cfg : RunConfig) (matching : List (String × String))
    (h : String) :
    ∀ (evs : List Nat) (st : AnnotState) (i : Nat),
      ((evs.foldl (annotateOne cfg matching h) st).states i).commits =
        (st.states i).commits + evs.count i := by
  intro evs
  induction evs with
  | nil => intro st i; simp
  | cons j evs ih =>
      intro st i
      rw [List.foldl_cons, ih]
      by_cases hij : i = j
      · subst hij
        simp [annotateOne, updateStates, annotate_event_commits, List.count_cons]
        try omega
      · have hji : ¬(j = i) := fun hc => hij hc.symm
        simp [annotateOne, updateStates, hij, List.count_cons, hji]
        try omega

theorem annotateMatched_commits (cfg : RunConfig) (matching : List (String × String)) :
    ∀ (dict : List (String × List Nat)) (st : AnnotState) (i : Nat),
      ((annotateMatched cfg matching dict st).states i).commits =
        (st.states i).commits +
          (dict.map (fun e => if e.1 ∈ matchedKeys matching then e.2.count i else 0)).sum := by
  intro dict
  induction dict with
  | nil => intro st i; simp [annotateMatched]
  | cons entry rest ih =>
      intro st i
      have hstep : annotateMatched cfg matching (entry :: rest) st =
          annotateMatched cfg matching rest
            (if entry.1 ∈ matchedKeys matching then
              entry.2.foldl (annotateOne cfg matching entry.1) st
            else st) := rfl
      rw [hstep, ih]
      by_cases hm : entry.1 ∈ matchedKeys matching
      · simp [hm, foldl_annotateOne_commits]
        try omega
      · simp [hm]

/-- The plain-text summary f-string of `run`. -/
def mkSummary (total uniqueKnown uniqueTotal tagged zerobyte errors : Nat) : String :=
  s!"Found a total of {total} events that contain a sha256 hash value - " ++
  s!"{uniqueKnown} / {uniqueTotal} unique hashes known in hashR - " ++
  s!"{tagged} events tagged - " ++
  s!"{zerobyte} entries were tagged as zerobyte files - " ++
  s!"{errors} events raised an error"

/-- The markdown summary f-string of `run`. -/
def mkMarkdown (total uniqueKnown uniqueTotal tagged zerobyte errors : Nat) : String :=
  s!"Found a total of {total} events that contain a sha256 hash value\n" ++
  s!"* {uniqueKnown} / {uniqueTotal} unique hashes known in hashR\n" ++
  s!"* {tagged} events tagged\n" ++
  s!"* {zerobyte} entries were tagged as zerobyte files\n" ++
  s!"* {errors} events raised an error"

/-- Everything observable about one invocation of `run`: the analyzer output
object, the counters that fed it, the final per-event annotation states, and
instrumentation for the resource claims (`query_count` counts the
`conn.execute` calls, `dispose_count` the `self.hashr_conn.dispose()` calls). -/
structure RunResult where
  result_status : String
  result_priority : String
  result_summary : String
  result_markdown : String
  total_event_counter : Nat
  error_hash_counter : Nat
  unique_hash_count : Nat
  unique_known_hash_counter : Nat
  known_hash_counter : Nat
  zerobyte_file_counter : Nat
  query_count : Nat
  dispose_count : Nat
  states : Nat → EventState
  hash_events_dict : List (String × List Nat)
  matching_hashes : List (String × String)
  rejections : List (Nat × Rejection)

/-- `run`: scan the stream building `hash_events_dict`; if it is empty, return
the "no hashes" outcome without ever querying (or disposing) the database;
otherwise check the distinct hashes against hashR, walk the matched hashes
tagging their events, and render the summary. `connect_hashr` succeeds by
assumption (a failure aborts before any event is touched);
`check_against_hashr` disposes the connection exactly when it runs.
`len(matching_hashes)` - the number of dict keys - is the number of distinct
matched hashes, `(matchedKeys matching).length`. -/
def run (cfg : RunConfig) (events : List (List (String × String))) : RunResult :=
  let scan := scanEvents events
  if scan.hash_events_dict.length ≤ 0 then
    { result_status := "SUCCESS"
      result_priority := "NOTE"
      result_summary := "This timeline does not contain any fields with a sha256 hash."
      result_markdown := ""
      total_event_counter := scan.total_event_counter
      error_hash_counter := scan.error_hash_counter
      unique_hash_count := 0
      unique_known_hash_counter := 0
      known_hash_counter := 0
      zerobyte_file_counter := 0
      query_count := 0
      dispose_count := 0
      states := fun _ => initialEventState
      hash_events_dict := scan.hash_events_dict
      matching_hashes := []
      rejections := scan.rejections }
  else
    let keys := scan.hash_events_dict.map Prod.fst
    let matching := check_against_hashr cfg.add_source_attribute cfg.query_batch_size cfg.db keys
    let ann := annotateMatched cfg matching scan.hash_events_dict initAnnot
    { result_status := "SUCCESS"
      result_priority := "NOTE"
      result_summary := mkSummary scan.total_event_counter (matchedKeys matching).length
        scan.hash_events_dict.length ann.known_hash_counter ann.zerobyte_file_counter
        scan.error_hash_counter
      result_markdown := mkMarkdown scan.total_event_counter (matchedKeys matching).length
        scan.hash_events_dict.length ann.known_hash_counter ann.zerobyte_file_counter
        scan.error_hash_counter
      total_event_counter := scan.total_event_counter
      error_hash_counter := scan.error_hash_counter
      unique_hash_count := scan.hash_events_dict.length
      unique_known_hash_counter := (matchedKeys matching).length
      known_hash_counter := ann.known_hash_counter
      zerobyte_file_counter := ann.zerobyte_file_counter
      query_count := (batch_hashes keys cfg.query_batch_size).length
      dispose_count := 1
      states := ann.states
      hash_events_dict := scan.hash_events_dict
      matching_hashes := matching
      rejections := scan.rejections }

/-- A concrete 64-character hash key used by the concrete scenarios. -/
def hashA : String := String.mk (List.replicate 64 'a')

/-- A second concrete 64-character hash key. -/
def hashB : String := String.mk (List.replicate 64 'b')

/-- An empty hashR database. -/
def dbEmpty : HashrDB := { samples := [], sources := [], samples_sources := [] }

/-- A database whose `samples` table knows `hashA` but whose join table is
empty. -/
def dbSamplesOnly : HashrDB :=
  { samples := [hashA], sources := [], samples_sources := [] }

/-- The database of the C8 scenario: only `hashA` is known, with provenance
repo name "imageA" and source id "src1" (source row hash "srcimg"). -/
def dbScenario : HashrDB :=
  { samples := [hashA]
    sources := [{ sha256 := "srcimg", sourceid := SourceId.str "src1", reponame := "imageA" }]
    samples_sources := [(hashA, "srcimg")] }

/-- The C8 event stream: three events with hashes hashA, hashA, hashB. -/
def eventsScenario : List (List (String × String)) :=
  [[("hash_sha256", hashA)], [("hash_sha256", hashA)], [("hash_sha256", hashB)]]

/-- A configuration against the empty database. -/
def cfgEmpty : RunConfig :=
  { add_source_attribute := true, query_batch_size := 1, db := dbEmpty }

/-- The C8 configuration with provenance tracking enabled. -/
def cfgProv : RunConfig :=
  { add_source_attribute := true, query_batch_size := 50000, db := dbScenario }

/-- The C8 configuration with provenance tracking disabled. -/
def cfgNoProv : RunConfig :=
  { add_source_attribute := false, query_batch_size := 50000, db := dbScenario }

theorem le_sum_of_mem : ∀ {l : List Nat} {a : Nat}, a ∈ l → a ≤ l.sum := by
  intro l
  induction l with
  | nil => intro a h; cases h
  | cons x xs ih =>
      intro a h
      rcases List.mem_cons.mp h with rfl | h'
      · simp
      · have := ih h'
        simp only [List.sum_cons]
        omega

theorem sum_map_le_sum_map {α : Type} (l : List α) (f g : α → Nat)
    (h : ∀ x ∈ l, f x ≤ g x) : (l.map f).sum ≤ (l.map g).sum := by
  induction l with
  | nil => simp
  | cons x xs ih =>
      simp only [List.map_cons, List.sum_cons]
      have h1 := h x (List.mem_cons_self x xs)
      have h2 := ih (fun y hy => h y (List.mem_cons_of_mem x hy))
      omega

/-- Claim C1: for every list of distinct hash keys and every batch size of at
least 1, the concatenation of the slices produced by `batch_hashes` equals the
original list; the `matching_hashes` mapping built by `check_against_hashr`
(merging per-batch query results by set insertion per hash) equals - as a dict
of per-hash source sets, i.e. member for member - the one computed with a
single batch of the full set size; and the merge is invariant under any
reordering of the batches. -/
theorem C1_batching_invariant (l : List String) (b : Nat) (add_source_attribute : Bool)
    (db : HashrDB) (hnd : l.Nodup) (hb : 1 ≤ b) :
    (batch_hashes l b).flatten = l ∧
    (∀ p : String × String,
      p ∈ check_against_hashr add_source_attribute b db l ↔
        p ∈ check_against_hashr add_source_attribute l.length db l) ∧
    (∀ bs : List (List String), (batch_hashes l b).Perm bs →
      ∀ p : String × String,
        p ∈ mergeRows add_source_attribute db bs ↔
          p ∈ check_against_hashr add_source_attribute b db l) := by
  obtain ⟨m, rfl⟩ : ∃ m, b = m + 1 := ⟨b - 1, by omega⟩
  refine ⟨join_batch_hashes l m, ?_, ?_⟩
  · intro p
    cases l with
    | nil => simp [check_against_hashr, batch_hashes, batchHashesAux, mergeRows]
    | cons x xs =>
        rw [mem_check_against_hashr (by omega), mem_check_against_hashr (by simp)]
  · intro bs hperm p
    rw [check_against_hashr, mem_mergeRows, mem_mergeRows]
    constructor
    · rintro ⟨bb, hbb, hp⟩
      exact ⟨bb, hperm.mem_iff.mpr hbb, hp⟩
    · rintro ⟨bb, hbb, hp⟩
      exact ⟨bb, hperm.mem_iff.mp hbb, hp⟩

theorem C1_batching_invariant_witness :
    (["k1", "k2", "k3"] : List String).Nodup ∧ 1 ≤ 2 ∧
    ((batch_hashes ["k1", "k2", "k3"] 2).flatten = ["k1", "k2", "k3"] ∧
     (∀ p : String × String,
       p ∈ check_against_hashr true 2 dbEmpty ["k1", "k2", "k3"] ↔
         p ∈ check_against_hashr true (["k1", "k2", "k3"] : List String).length dbEmpty
           ["k1", "k2", "k3"]) ∧
     (∀ bs : List (List String), (batch_hashes ["k1", "k2", "k3"] 2).Perm bs →
       ∀ p : String × String,
         p ∈ mergeRows true dbEmpty bs ↔
           p ∈ check_against_hashr true 2 dbEmpty ["k1", "k2", "k3"])) :=
  ⟨by decide, by decide,
    C1_batching_invariant ["k1", "k2", "k3"] 2 true dbEmpty (by decide) (by decide)⟩

/-- Claim C2: whenever `annotate_event` runs on the zero-byte sentinel hash,
the event gets both the `known-hash` and `zerobyte-file` tags, the zero-byte
counter is incremented by one, and no `hashR_sample_sources` attribute is
attached, whatever provenance set the lookup returned for that hash. -/
theorem C2_zerobyte_rule (sources : Sources) (event : EventState) (zb : Nat) :
    "known-hash" ∈ (annotate_event ZEROBYTE_HASH sources event zb).event.tags ∧
    "zerobyte-file" ∈ (annotate_event ZEROBYTE_HASH sources event zb).event.tags ∧
    (annotate_event ZEROBYTE_HASH sources event zb).zerobyte_file_counter = zb + 1 ∧
    (annotate_event ZEROBYTE_HASH sources event zb).event.attrs = event.attrs := by
  have hz : (ZEROBYTE_HASH == ZEROBYTE_HASH) = true := by simp
  refine ⟨?_, ?_, ?_, ?_⟩ <;>
    simp [annotate_event, hz, EventState.add_tags, EventState.commit, mem_addTag]

/-- Claim C9: an event whose first recognized hash field holds the empty
string is rejected through the same `if not hash_value` branch as an event
with no recognized field at all (same error counter, same
"no matching field" warning, the length-64 check is never reached), and the
event is excluded from `hash_events_dict`. -/
theorem C9_empty_value (st : ScanState) (i : Nat) (src : List (String × String))
    (h : firstHashValue src = some "") :
    processEvent st (i, src) =
      { st with total_event_counter := st.total_event_counter + 1,
                error_hash_counter := st.error_hash_counter + 1,
                rejections := st.rejections ++ [(i, Rejection.noMatchingField)] } ∧
    (processEvent st (i, src)).hash_events_dict = st.hash_events_dict := by
  constructor <;> simp [processEvent, h]

theorem C9_empty_value_witness :
    firstHashValue [("hash", "")] = some "" ∧
    (processEvent initialScan (0, [("hash", "")]) =
      { initialScan with total_event_counter := initialScan.total_event_counter + 1,
                         error_hash_counter := initialScan.error_hash_counter + 1,
                         rejections := initialScan.rejections ++
                           [(0, Rejection.noMatchingField)] } ∧
     (processEvent initialScan (0, [("hash", "")])).hash_events_dict =
       initialScan.hash_events_dict) :=
  ⟨by decide, C9_empty_value initialScan 0 [("hash", "")] (by decide)⟩

/-- Claim C4: if the first recognized field of an event holds a value of
length exactly 64, the value is stored in `hash_events_dict` unmodified with
the event appended to its list; if the length is not 64, the error counter is
incremented and the event is excluded from the dict; and in either case the
scan loop simply continues with the remaining events. -/
theorem C4_extraction (st : ScanState) (i : Nat) (src : List (String × String))
    (v : String) (hv : firstHashValue src = some v) :
    (v.length = 64 →
      processEvent st (i, src) =
        { st with total_event_counter := st.total_event_counter + 1,
                  hash_events_dict := dictAppend st.hash_events_dict v i } ∧
      dictGetD (dictAppend st.hash_events_dict v i) v =
        dictGetD st.hash_events_dict v ++ [i]) ∧
    (v.length ≠ 64 →
      (processEvent st (i, src)).error_hash_counter = st.error_hash_counter + 1 ∧
      (processEvent st (i, src)).hash_events_dict = st.hash_events_dict) ∧
    (∀ (st' : ScanState) (rest : List (Nat × List (String × String))),
      ((i, src) :: rest).foldl processEvent st' =
        rest.foldl processEvent (processEvent st' (i, src))) := by
  refine ⟨?_, ?_, fun st' rest => rfl⟩
  · intro hl
    have hne : ¬(v = "") := by
      intro hc
      rw [hc] at hl
      simp at hl
    refine ⟨?_, dictGetD_dictAppend st.hash_events_dict v i⟩
    simp [processEvent, hv, hne, hl]
  · intro hl
    by_cases hne : v = ""
    · constructor <;> simp [processEvent, hv, hne]
    · constructor <;> simp [processEvent, hv, hne, hl]

theorem C4_extraction_witness :
    firstHashValue [("hash_sha256", hashA)] = some hashA ∧ hashA.length = 64 ∧
    (processEvent initialScan (0, [("hash_sha256", hashA)]) =
      { initialScan with total_event_counter := initialScan.total_event_counter + 1,
                         hash_events_dict :=
                           dictAppend initialScan.hash_events_dict hashA 0 } ∧
     dictGetD (dictAppend initialScan.hash_events_dict hashA 0) hashA =
       dictGetD initialScan.hash_events_dict hashA ++ [0]) :=
  ⟨by decide, by decide,
    (C4_extraction initialScan 0 [("hash_sha256", hashA)] hashA (by decide)).1 (by decide)⟩

/-- Claim C5: a run that finds no extractable hash terminates with status
SUCCESS and the "no sha256 hashes" message, and issues zero queries to the
hashR database - the reconcile and tagging stages are skipped. -/
theorem C5_no_hashes (cfg : RunConfig) (events : List (List (String × String)))
    (h : (scanEvents events).hash_events_dict = []) :
    (run cfg events).result_status = "SUCCESS" ∧
    (run cfg events).result_summary =
      "This timeline does not contain any fields with a sha256 hash." ∧
    (run cfg events).query_count = 0 := by
  refine ⟨?_, ?_, ?_⟩ <;> simp [run, h]

theorem C5_no_hashes_witness :
    (scanEvents []).hash_events_dict = [] ∧
    ((run cfgEmpty []).result_status = "SUCCESS" ∧
     (run cfgEmpty []).result_summary =
       "This timeline does not contain any fields with a sha256 hash." ∧
     (run cfgEmpty []).query_count = 0) :=
  ⟨rfl, C5_no_hashes cfgEmpty [] rfl⟩

/-- Claim C6 counterexample: the claim says the connection is released exactly
once on every exit path; but on the early exit taken when no hashes are
extracted (here: an empty stream), `check_against_hashr` - the only place that
calls `self.hashr_conn.dispose()` - never runs, so the connection acquired by
`connect_hashr` is never disposed. -/
theorem C6_counterexample :
    (run cfgEmpty []).dispose_count = 0 ∧ ¬((run cfgEmpty []).dispose_count = 1) := by
  decide

/-- Claim C6 amended: the connection is disposed exactly once on every run
that reaches `check_against_hashr`; on the early exit taken when no hashes are
extracted it is not disposed at all. -/
theorem C6_release (cfg : RunConfig) (events : List (List (String × String))) :
    ((scanEvents events).hash_events_dict = [] → (run cfg events).dispose_count = 0) ∧
    ((scanEvents events).hash_events_dict ≠ [] → (run cfg events).dispose_count = 1) := by
  constructor
  · intro h
    simp [run, h]
  · intro h
    have hlen : ¬((scanEvents events).hash_events_dict.length ≤ 0) := by
      cases hd : (scanEvents events).hash_events_dict with
      | nil => exact absurd hd h
      | cons a l => simp [hd]
    simp [run, hlen]

theorem C6_release_witness :
    ((scanEvents []).hash_events_dict = [] ∧ (run cfgEmpty []).dispose_count = 0) ∧
    ((scanEvents eventsScenario).hash_events_dict ≠ [] ∧
      (run cfgProv eventsScenario).dispose_count = 1) :=
  ⟨⟨rfl, (C6_release cfgEmpty []).1 rfl⟩,
   ⟨by decide, (C6_release cfgProv eventsScenario).2 (by decide)⟩⟩

/-- Claim C3 counterexample: with provenance tracking disabled, a hash found
in the `samples` table is present in `matching_hashes`, but its provenance set
is not empty - the merge loop stores the sentinel `"TagsOnly"` (the rows of
the membership-only query have one column, so `entry[2]` raises and the
`except` branch supplies `"TagsOnly"`). -/
theorem C3_counterexample :
    hashA ∈ matchedKeys (check_against_hashr false 1 dbSamplesOnly [hashA]) ∧
    ¬(provSet (check_against_hashr false 1 dbSamplesOnly [hashA]) hashA = []) ∧
    provSet (check_against_hashr false 1 dbSamplesOnly [hashA]) hashA = ["TagsOnly"] := by
  refine ⟨?_, ?_, ?_⟩ <;> decide

/-- Claim C3 amended: when provenance tracking is disabled, every hash key
present in the `matching_hashes` returned by `check_against_hashr` maps to the
singleton provenance set containing the sentinel `"TagsOnly"` - presence, not
set content, signals a match. -/
theorem C3_tagsonly (db : HashrDB) (l : List String) (b : Nat) (h : String)
    (hb : 1 ≤ b) (hmem : h ∈ matchedKeys (check_against_hashr false b db l)) :
    provSet (check_against_hashr false b db l) h ≠ [] ∧
    ∀ s ∈ provSet (check_against_hashr false b db l) h, s = "TagsOnly" := by
  have hall : ∀ p ∈ check_against_hashr false b db l, p.2 = "TagsOnly" := by
    intro p hp
    rw [mem_check_against_hashr hb] at hp
    have hrow := hp.2
    rw [show allRows false db = memberRows db from if_neg (by simp)] at hrow
    unfold memberRows at hrow
    rw [List.mem_map] at hrow
    obtain ⟨x, _, hpe⟩ := hrow
    rw [← hpe]
  constructor
  · obtain ⟨p, hp, hph⟩ := mem_matchedKeys.mp hmem
    have hmemprov : p.2 ∈ provSet (check_against_hashr false b db l) h := by
      unfold provSet
      rw [List.mem_map]
      refine ⟨p, ?_, rfl⟩
      rw [List.mem_filter]
      exact ⟨hp, by simp [hph]⟩
    exact List.ne_nil_of_mem hmemprov
  · intro s hs
    unfold provSet at hs
    rw [List.mem_map] at hs
    obtain ⟨p, hp, hps⟩ := hs
    rw [List.mem_filter] at hp
    rw [← hps]
    exact hall p hp.1

theorem C3_tagsonly_witness :
    (1 ≤ 1 ∧ hashA ∈ matchedKeys (check_against_hashr false 1 dbSamplesOnly [hashA])) ∧
    (provSet (check_against_hashr false 1 dbSamplesOnly [hashA]) hashA ≠ [] ∧
     ∀ s ∈ provSet (check_against_hashr false 1 dbSamplesOnly [hashA]) hashA,
       s = "TagsOnly") :=
  ⟨⟨by decide, by decide⟩,
    C3_tagsonly dbSamplesOnly [hashA] 1 hashA (by decide) (by decide)⟩

/-- Claim C10: when provenance tracking is enabled, membership is decided by
the `samples_sources` join - a hash with no row in `samples_sources` is absent
from `matching_hashes` even if it sits in `samples`; with the switch off the
same hash matches through the `samples` table, so toggling the switch can
change which hashes match, not only whether provenance is attached. -/
theorem C10_join_membership (db : HashrDB) (l : List String) (b : Nat) (h : String)
    (hb : 1 ≤ b) (hnorow : ∀ p ∈ db.samples_sources, p.1 ≠ h) :
    h ∉ matchedKeys (check_against_hashr true b db l) ∧
    (h ∈ db.samples → h ∈ l → h ∈ matchedKeys (check_against_hashr false b db l)) := by
  constructor
  · intro hmem
    obtain ⟨p, hp, hph⟩ := mem_matchedKeys.mp hmem
    rw [mem_check_against_hashr hb] at hp
    have hrow := hp.2
    rw [show allRows true db = provRows db from if_pos rfl] at hrow
    unfold provRows at hrow
    rw [List.mem_flatMap] at hrow
    obtain ⟨ss, hss, hmm⟩ := hrow
    rw [List.mem_map] at hmm
    obtain ⟨src, _, hpe⟩ := hmm
    have hfst : p.1 = ss.1 := by rw [← hpe]
    exact hnorow ss hss (by rw [← hfst, hph])
  · intro hs hl
    apply mem_matchedKeys.mpr
    refine ⟨(h, "TagsOnly"), ?_, rfl⟩
    rw [mem_check_against_hashr hb]
    refine ⟨hl, ?_⟩
    rw [show allRows false db = memberRows db from if_neg (by simp)]
    unfold memberRows
    rw [List.mem_map]
    exact ⟨h, hs, rfl⟩

theorem C10_join_membership_witness :
    (1 ≤ 1 ∧ ∀ p ∈ dbSamplesOnly.samples_sources, p.1 ≠ hashA) ∧
    (hashA ∉ matchedKeys (check_against_hashr true 1 dbSamplesOnly [hashA]) ∧
     (hashA ∈ dbSamplesOnly.samples → hashA ∈ [hashA] →
       hashA ∈ matchedKeys (check_against_hashr false 1 dbSamplesOnly [hashA]))) :=
  ⟨⟨by decide, by decide⟩,
    C10_join_membership dbSamplesOnly [hashA] 1 hashA (by decide) (by decide)⟩

theorem annotate_commits_bound (cfg : RunConfig) (matching : List (String × String))
    (dict : List (String × List Nat)) (i : Nat)
    (hcount : countInDict dict i ≤ 1) :
    ((annotateMatched cfg matching dict initAnnot).states i).commits ≤ 1 ∧
    ((∃ entry ∈ dict, i ∈ entry.2 ∧ entry.1 ∈ matchedKeys matching) →
      ((annotateMatched cfg matching dict initAnnot).states i).commits = 1) := by
  have hsum := annotateMatched_commits cfg matching dict initAnnot i
  have hzero : (initAnnot.states i).commits = 0 := rfl
  have hle : (dict.map (fun e => if e.1 ∈ matchedKeys matching then e.2.count i else 0)).sum ≤
      countInDict dict i := by
    unfold countInDict
    apply sum_map_le_sum_map
    intro x _
    split
    · exact Nat.le_refl _
    · exact Nat.zero_le _
  constructor
  · rw [hsum]
    omega
  · rintro ⟨entry, hentry, hin, hmatched⟩
    have hval : (if entry.1 ∈ matchedKeys matching then entry.2.count i else 0) ∈
        dict.map (fun e => if e.1 ∈ matchedKeys matching then e.2.count i else 0) :=
      List.mem_map_of_mem _ hentry
    have h1 : 1 ≤ (if entry.1 ∈ matchedKeys matching then entry.2.count i else 0) := by
      rw [if_pos hmatched]
      exact List.one_le_count_iff.mpr hin
    have hge := le_trans h1 (le_sum_of_mem hval)
    rw [hsum]
    omega

/-- Claim C7: for every run and every event, `commit` runs on that event at
most once, and exactly once when the event's hash key is matched: each event
is appended to at most one hash key's list (the probing loop breaks on the
first present field), each matched key's list is walked exactly once by the
tagging loop, and `annotate_event` commits exactly once per call. -/
theorem C7_commit_once (cfg : RunConfig) (events : List (List (String × String)))
    (i : Nat) :
    ((run cfg events).states i).commits ≤ 1 ∧
    ((∃ entry ∈ (run cfg events).hash_events_dict,
        i ∈ entry.2 ∧ entry.1 ∈ matchedKeys (run cfg events).matching_hashes) →
      ((run cfg events).states i).commits = 1) := by
  by_cases hd : (scanEvents events).hash_events_dict.length ≤ 0
  · have hnil : (scanEvents events).hash_events_dict = [] :=
      List.length_eq_zero.mp (by omega)
    have hstates : (run cfg events).states = fun _ => initialEventState := by
      simp [run, hd]
    have hdict : (run cfg events).hash_events_dict =
        (scanEvents events).hash_events_dict := by
      simp [run, hd]
    constructor
    · rw [hstates]
      exact Nat.zero_le 1
    · rintro ⟨entry, hentry, _⟩
      rw [hdict, hnil] at hentry
      cases hentry
  · have hstates : (run cfg events).states =
        (annotateMatched cfg
          (check_against_hashr cfg.add_source_attribute cfg.query_batch_size cfg.db
            ((scanEvents events).hash_events_dict.map Prod.fst))
          (scanEvents events).hash_events_dict initAnnot).states := by
      simp [run, hd]
    have hdict : (run cfg events).hash_events_dict =
        (scanEvents events).hash_events_dict := by
      simp [run, hd]
    have hmatch : (run cfg events).matching_hashes =
        check_against_hashr cfg.add_source_attribute cfg.query_batch_size cfg.db
          ((scanEvents events).hash_events_dict.map Prod.fst) := by
      simp [run, hd]
    rw [hstates, hdict, hmatch]
    exact annotate_commits_bound cfg _ _ i (countInDict_scan_le_one events i)

theorem C7_commit_once_witness :
    (∃ entry ∈ (run cfgProv eventsScenario).hash_events_dict,
        0 ∈ entry.2 ∧ entry.1 ∈ matchedKeys (run cfgProv eventsScenario).matching_hashes) ∧
    ((run cfgProv eventsScenario).states 0).commits = 1 :=
  ⟨by decide, (C7_commit_once cfgProv eventsScenario 0).2 (by decide)⟩

set_option maxRecDepth 100000 in
/-- Claim C8: the concrete scenario of a 3-event stream carrying hashes
(hashA, hashA, hashB), where the database knows only hashA with provenance
"imageA:src1". With provenance tracking on, both hashA events get the
known-hash tag and the `hashR_sample_sources = ["imageA:src1"]` attribute, the
hashB event is untouched, and the summary reports 3 events, 1 of 2 unique
hashes matched, 2 events tagged, 0 zero-byte, 0 errors; with provenance
tracking off on the same input, the hashA events get the tag only and no
attribute. -/
theorem C8_scenario :
    ((run cfgProv eventsScenario).states 0).tags = ["known-hash"] ∧
    ((run cfgProv eventsScenario).states 0).attrs =
      [("hashR_sample_sources", ["imageA:src1"])] ∧
    ((run cfgProv eventsScenario).states 1).tags = ["known-hash"] ∧
    ((run cfgProv eventsScenario).states 1).attrs =
      [("hashR_sample_sources", ["imageA:src1"])] ∧
    (run cfgProv eventsScenario).states 2 = initialEventState ∧
    (run cfgProv eventsScenario).total_event_counter = 3 ∧
    (run cfgProv eventsScenario).unique_hash_count = 2 ∧
    (run cfgProv eventsScenario).unique_known_hash_counter = 1 ∧
    (run cfgProv eventsScenario).known_hash_counter = 2 ∧
    (run cfgProv eventsScenario).zerobyte_file_counter = 0 ∧
    (run cfgProv eventsScenario).error_hash_counter = 0 ∧
    (run cfgProv eventsScenario).result_summary =
      "Found a total of 3 events that contain a sha256 hash value - " ++
      "1 / 2 unique hashes known in hashR - 2 events tagged - " ++
      "0 entries were tagged as zerobyte files - 0 events raised an error" ∧
    ((run cfgNoProv eventsScenario).states 0).tags = ["known-hash"] ∧
    ((run cfgNoProv eventsScenario).states 0).attrs = [] ∧
    ((run cfgNoProv eventsScenario).states 1).tags = ["known-hash"] ∧
    ((run cfgNoProv eventsScenario).states 1).attrs = [] ∧
    (run cfgNoProv eventsScenario).states 2 = initialEventState := by
  refine ⟨?_, ?_, ?_, ?_, ?_, ?_, ?_, ?_, ?_, ?_, ?_, ?_, ?_, ?_, ?_, ?_, ?_⟩ <;> decide
